import Mathlib

/-!
Shallow embedding of the babblewitz conformance/benchmark harness
(`babblewitz-cli`), covering the corpus directive parser, the worker
protocol decoder, the executor lifecycle, the manifest loader, and the
conformance/benchmark aggregators.

Byte sequences are modelled as `List Nat` (each entry a byte value),
strings as `List Char`, and `f64` arithmetic as exact rationals `ℚ`.
-/

deriving instance DecidableEq for Except

namespace Babblewitz

/-! ## Game (src/core/savefile.rs) -/

/-- The closed set of supported games, in Rust declaration order
(which fixes the derived `Ord`). -/
inductive Game where
  | Ck3
  | Eu4
  | Hoi4
  | Imperator
  | Stellaris
  | Vic3
deriving DecidableEq

/-- All games in the canonical (declaration / `Ord`) order. -/
def orderedGames : List Game :=
  [Game.Ck3, Game.Eu4, Game.Hoi4, Game.Imperator, Game.Stellaris, Game.Vic3]

/-- ASCII-only lowercasing, modelling `str::to_lowercase` on the ASCII
inputs the game tags are drawn from. -/
def asciiLower (c : Char) : Char :=
  if 'A' ≤ c ∧ c ≤ 'Z' then Char.ofNat (c.toNat + 32) else c

/-- Model of `Game::from_str`: lowercase the tag, then match the six known tags. -/
def gameFromStr (s : List Char) : Option Game :=
  let t := s.map asciiLower
  if t = "eu4".data then some Game.Eu4
  else if t = "ck3".data then some Game.Ck3
  else if t = "vic3".data then some Game.Vic3
  else if t = "hoi4".data then some Game.Hoi4
  else if t = "imperator".data then some Game.Imperator
  else if t = "stellaris".data then some Game.Stellaris
  else none

/-- Model of `Game::as_str`. -/
def gameAsStr : Game → List Char
  | Game.Eu4 => "eu4".data
  | Game.Ck3 => "ck3".data
  | Game.Vic3 => "vic3".data
  | Game.Hoi4 => "hoi4".data
  | Game.Imperator => "imperator".data
  | Game.Stellaris => "stellaris".data

/-! ## Rust string primitives -/

/-- Rust `char::is_whitespace` (the Unicode White_Space property). -/
def rustIsWhitespace (c : Char) : Bool :=
  c.toNat ∈ ([9, 10, 11, 12, 13, 32, 133, 160, 5760,
    8192, 8193, 8194, 8195, 8196, 8197, 8198, 8199, 8200, 8201, 8202,
    8232, 8233, 8239, 8287, 12288] : List Nat)

/-- Rust `str::trim`: drop Unicode whitespace from both ends. -/
def rustTrim (l : List Char) : List Char :=
  ((l.dropWhile rustIsWhitespace).reverse.dropWhile rustIsWhitespace).reverse

/-- Helper for `str::lines`: split at every `'\n'` (the separators are
consumed; a final part is always present, empty when the input ends in
`'\n'` or is empty). -/
def splitOnNl : List Char → List (List Char)
  | [] => [[]]
  | c :: t =>
    if c = '\n' then [] :: splitOnNl t
    else
      match splitOnNl t with
      | [] => [[c]]
      | p :: ps => (c :: p) :: ps

/-- Strip one trailing `'\r'` (for `\r\n` line endings). -/
def stripCR (l : List Char) : List Char :=
  if l.getLast? = some '\r' then l.dropLast else l

/-- Helper for `str::lines`: every part except the final one was
`'\n'`-terminated, so gets one trailing `'\r'` stripped; the final part
is dropped when empty (no trailing empty line) and otherwise kept as-is. -/
def linesProcess : List (List Char) → List (List Char)
  | [] => []
  | [p] => if p = [] then [] else [p]
  | p :: ps => stripCR p :: linesProcess ps

/-- Rust `str::lines`. -/
def rustLines (l : List Char) : List (List Char) :=
  linesProcess (splitOnNl l)

/-- Rust `str::split_whitespace`: whitespace-separated tokens, no empties.
`acc` carries the current token reversed. -/
def splitWsAux : List Char → List Char → List (List Char)
  | [], acc => if acc = [] then [] else [acc.reverse]
  | c :: t, acc =>
    if rustIsWhitespace c then
      if acc = [] then splitWsAux t [] else acc.reverse :: splitWsAux t []
    else splitWsAux t (c :: acc)

def splitWs (l : List Char) : List (List Char) := splitWsAux l []

/-- Rust `<uN>::from_str` restricted to radix 10 with an upper bound:
an optional leading `'+'`, then one or more ASCII digits, and the value
must not exceed `bound`. -/
def parseRustNat (bound : Nat) (s : List Char) : Option Nat :=
  let digits := match s with
    | '+' :: t => t
    | t => t
  if digits ≠ [] ∧ digits.all Char.isDigit then
    let v := digits.foldl (fun a c => a * 10 + (c.toNat - 48)) 0
    if v ≤ bound then some v else none
  else none

/-- Model of `str::parse::<u64>`. -/
def parseU64 (s : List Char) : Option Nat := parseRustNat (2 ^ 64 - 1) s

/-- Model of `str::parse::<u128>`. -/
def parseU128 (s : List Char) : Option Nat := parseRustNat (2 ^ 128 - 1) s

/-! ## Lossy UTF-8 decoding (`String::from_utf8_lossy`)

Rust decodes with substitution of maximal subparts: each malformed
subsequence (of 1 to 3 bytes, as determined by UTF-8 validation) becomes
one U+FFFD replacement character, as does an incomplete sequence at the
end of input. -/

/-- The U+FFFD replacement character. -/
def repl : Char := Char.ofNat 0xFFFD

/-- Is `b` a UTF-8 continuation byte (`0x80..=0xBF`)? -/
def isCont (b : Nat) : Bool := 0x80 ≤ b ∧ b < 0xC0

/-- Lower bound of the valid second byte after leading byte `b` of a
3-byte sequence (`0xE0` forbids overlong encodings). -/
def lo3 (b : Nat) : Nat := if b = 0xE0 then 0xA0 else 0x80

/-- Upper bound (inclusive) of the valid second byte after leading byte
`b` of a 3-byte sequence (`0xED` excludes surrogates). -/
def hi3 (b : Nat) : Nat := if b = 0xED then 0x9F else 0xBF

/-- Lower bound of the valid second byte after leading byte `b` of a
4-byte sequence (`0xF0` forbids overlong encodings). -/
def lo4 (b : Nat) : Nat := if b = 0xF0 then 0x90 else 0x80

/-- Upper bound (inclusive) of the valid second byte after leading byte
`b` of a 4-byte sequence (`0xF4` caps at U+10FFFF). -/
def hi4 (b : Nat) : Nat := if b = 0xF4 then 0x8F else 0xBF

/-- Model of `String::from_utf8_lossy`, producing the character list. -/
def decodeChars : List Nat → List Char
  | [] => []
  | b :: rest =>
    if b < 0x80 then Char.ofNat b :: decodeChars rest
    else if b < 0xC2 then
      -- stray continuation byte, or overlong lead 0xC0/0xC1: 1-byte error
      repl :: decodeChars rest
    else if b < 0xE0 then
      match rest with
      | [] => [repl]
      | c :: rest2 =>
        if isCont c then
          Char.ofNat ((b - 0xC0) * 64 + (c - 0x80)) :: decodeChars rest2
        else repl :: decodeChars (c :: rest2)
    else if b < 0xF0 then
      match rest with
      | [] => [repl]
      | c :: rest2 =>
        if lo3 b ≤ c ∧ c ≤ hi3 b then
          match rest2 with
          | [] => [repl]
          | d :: rest3 =>
            if isCont d then
              Char.ofNat ((b - 0xE0) * 4096 + (c - 0x80) * 64 + (d - 0x80))
                :: decodeChars rest3
            else repl :: decodeChars (d :: rest3)
        else repl :: decodeChars (c :: rest2)
    else if b < 0xF5 then
      match rest with
      | [] => [repl]
      | c :: rest2 =>
        if lo4 b ≤ c ∧ c ≤ hi4 b then
          match rest2 with
          | [] => [repl]
          | d :: rest3 =>
            if isCont d then
              match rest3 with
              | [] => [repl]
              | e :: rest4 =>
                if isCont e then
                  Char.ofNat ((b - 0xF0) * 262144 + (c - 0x80) * 4096 +
                    (d - 0x80) * 64 + (e - 0x80)) :: decodeChars rest4
                else repl :: decodeChars (e :: rest4)
            else repl :: decodeChars (d :: rest3)
        else repl :: decodeChars (c :: rest2)
    else
      -- invalid lead byte 0xF5..0xFF: 1-byte error
      repl :: decodeChars rest

/-! ## Corpus parsing (src/core/corpus.rs) -/

/-- The directive marker `# @babblewitz:games:`. -/
def directiveMark : List Char := "# @babblewitz:games:".data

/-- The literal token `all`. -/
def allToken : List Char := "all".data

/-- The fixed list the `all` alias expands to, in source order. -/
def allGames : List Game :=
  [Game.Eu4, Game.Ck3, Game.Hoi4, Game.Vic3, Game.Imperator, Game.Stellaris]

/-- The token loop of `expand_game_aliases`: `all` appends the full
six-game list, a recognized tag appends that game, anything else is an
error naming the token. -/
def expandTokens : List (List Char) → Except (List Char) (List Game)
  | [] => .ok []
  | t :: ts =>
    if t = allToken then
      (expandTokens ts).map (fun gs => allGames ++ gs)
    else
      match gameFromStr t with
      | some g => (expandTokens ts).map (fun gs => g :: gs)
      | none => .error ("Unrecognized game: ".data ++ t)

/-- The dedup loop of `expand_game_aliases`: keep the first occurrence
of each game, preserving order. -/
def dedupGames (l : List Game) : List Game :=
  l.foldl (fun acc g => if g ∈ acc then acc else acc ++ [g]) []

/-- Model of `expand_game_aliases`. -/
def expand_game_aliases (games_part : List Char) : Except (List Char) (List Game) :=
  (expandTokens (splitWs games_part)).map dedupGames

/-- The byte scan of `parse_corpus_content`: find the first `\n` or `\r`
byte and return the bytes after the terminator (`\r\n` is consumed as a
pair); `none` when no terminator byte exists (in the source, `split_pos`
stays 0 and the whole buffer is kept). -/
def splitRemainder : List Nat → Option (List Nat)
  | [] => none
  | b :: t =>
    if b = 10 then some t
    else if b = 13 then
      match t with
      | 10 :: t2 => some t2
      | _ => some t
    else splitRemainder t

/-- The games contributed by one directive token (`all` or a recognized
tag; empty for an unrecognized token, which never occurs on the success
path). -/
def expandTok (t : List Char) : List Game :=
  if t = allToken then allGames
  else
    match gameFromStr t with
    | some g => [g]
    | none => []

/-- Model of `parse_corpus_content`: decode lossily, inspect the (trimmed) first
line for the games directive; on a directive, expand the game tokens and
strip the first line from the raw bytes; otherwise return the input
unchanged with no games. -/
def parse_corpus_content (content_bytes : List Nat) :
    Except (List Char) (List Game × List Nat) :=
  let lines := rustLines (decodeChars content_bytes)
  match lines with
  | [] => .ok ([], content_bytes)
  | first :: restLines =>
    let first_line := rustTrim first
    if directiveMark.isPrefixOf first_line then
      let games_part := rustTrim (first_line.drop directiveMark.length)
      match expand_game_aliases games_part with
      | .error e => .error e
      | .ok games =>
        let content := if restLines ≠ [] then
            (splitRemainder content_bytes).getD content_bytes
          else []
        .ok (games, content)
    else .ok ([], content_bytes)

/-! ## Worker protocol decoding (src/core/executor.rs, `execute`) -/

/-- Model of `ExecutionResult`. A `Duration` built with `from_micros` is kept as
its microsecond count. -/
inductive ExecutionResult where
  | Success (elapsedMicros : Nat)
  | Error (error : List Char)
deriving DecidableEq

/-- Debug formatting of the `Option<i32>` exit code, as used in the
generic error message. -/
def reprExitCode : Option Int → List Char
  | some n => "Some(".data ++ (toString n).data ++ ")".data
  | none => "None".data

/-- The combined stdout/stderr error message: the non-empty trimmed
streams joined by one space, or the generic exit-code message when both
are empty after trimming. -/
def combinedOutputMsg (exit_code : Option Int) (stdout stderr : List Char) :
    List Char :=
  let so := rustTrim stdout
  let se := rustTrim stderr
  if so = [] then
    if se = [] then "Process exited with code: ".data ++ reprExitCode exit_code
    else se
  else if se = [] then so
  else so ++ ' ' :: se

/-- The error branch of `execute` (after the success decode failed):
line 2 verbatim when there are at least two lines and line 1 parses as a
`u128`; otherwise the combined-streams message. -/
def errorOutcomeMsg (exit_code : Option Int) (stdout stderr : List Char) :
    List Char :=
  match rustLines stdout with
  | l0 :: l1 :: _ =>
    if (parseU128 l0).isSome then l1
    else combinedOutputMsg exit_code stdout stderr
  | _ => combinedOutputMsg exit_code stdout stderr

/-- The output-decoding tail of `ImplementationExecutor::execute`: given
the child's exit status and captured streams, classify the invocation.
`Success` requires a successful exit, at least two stdout lines, and a
first line parsing as a `u64` microsecond count. -/
def decodeOutcome (exit_success : Bool) (exit_code : Option Int)
    (stdout stderr : List Char) : ExecutionResult :=
  match rustLines stdout with
  | l0 :: _ :: _ =>
    if exit_success then
      match parseU64 l0 with
      | some micros => .Success micros
      | none => .Error (errorOutcomeMsg exit_code stdout stderr)
    else .Error (errorOutcomeMsg exit_code stdout stderr)
  | _ => .Error (errorOutcomeMsg exit_code stdout stderr)

/-! ## Executor lifecycle (src/core/executor.rs, `build`) -/

/-- The two phantom lifecycle stages of `ImplementationExecutor`. -/
inductive Stage where
  | Initial
  | Built
deriving DecidableEq

/-- Resolving the build command: the explicit override from the manifest
when present, else the project-type default (which may itself be
absent). -/
def resolveBuildCommand (override projectDefault : Option (List Char)) :
    Option (List Char) :=
  match override with
  | some c => some c
  | none => projectDefault

/-- Model of `ImplementationExecutor::build`, with the child-process run
abstracted to its observed exit status: a configured command that exits
unsuccessfully is an error carrying the exit code; success (or no
configured command at all) yields the `Built` stage. -/
def buildExecutor (build_command : Option (List Char)) (exit_success : Bool)
    (exit_code : Option Int) : Except (List Char) Stage :=
  match build_command with
  | some _ =>
    if exit_success then .ok Stage.Built
    else .error ("Build failed with exit code: ".data ++ reprExitCode exit_code)
  | none => .ok Stage.Built

/-- Which stage exposes `execute`: only `Built` (in the source this is
enforced at the type level, `execute` being defined on
`ImplementationExecutor<Built>` only). -/
def exposesExecute : Stage → Bool
  | Stage.Built => true
  | Stage.Initial => false

/-- The lifecycle transition system: an executor starts `Initial`, and
the only operation producing a new stage is `build`, available from
`Initial` and succeeding with the stage `buildExecutor` returns. -/
inductive StageReachable : Stage → Prop
  | start : StageReachable Stage.Initial
  | buildStep (cmd : Option (List Char)) (ok : Bool) (code : Option Int)
      (s : Stage) : StageReachable Stage.Initial →
      buildExecutor cmd ok code = .ok s → StageReachable s

/-! ## Success rate (src/commands/tasks/can_parse.rs) -/

/-- Model of `CanParseGameResult::success_rate`, with `f64` arithmetic modelled
as exact rationals. -/
def success_rate (passed_tests total_tests : Nat) : ℚ :=
  if 0 < total_tests then
    ((passed_tests : ℚ) / (total_tests : ℚ)) * 100
  else 0

/-! ## Conformance aggregation (src/commands/tasks/can_parse.rs) -/

/-- One corpus file as seen by the aggregator: its display name, its
declared games, and its post-directive content. -/
structure CorpusFileM where
  name : List Char
  games : List Game
  content : List Nat
deriving DecidableEq

/-- A recorded failure line. -/
structure FailureDetail where
  implementation : List Char
  corpus_file : List Char
  error_message : List Char
deriving DecidableEq

/-- The result of one `executor.execute` call as the aggregator sees
it: `Ok(Success)`, `Ok(Error)`, or a harness-level `Err`. -/
inductive ExecOutcome where
  | success (elapsedMicros : Nat)
  | error (msg : List Char)
  | execFail (msg : List Char)
deriving DecidableEq

/-- Per-game counters keyed by game, plus the failure list, mirroring
the `game_results` map and `failures` vector. -/
structure CanParseState where
  total : Game → Nat
  passed : Game → Nat
  failures : List FailureDetail

/-- Increment a per-game counter. -/
def bumpGame (f : Game → Nat) (g : Game) : Game → Nat :=
  fun x => if x = g then f x + 1 else f x

/-- The per-file step of `run_can_parase_tests_with_implementation`:
compute the applicable games (the intersection, in `games_to_test`
order), skip the file when empty, bump the total counters, then either
bump the passed counters (success) or record one failure. -/
def canParseStep (implName : List Char) (games_to_test : List Game)
    (st : CanParseState) (f : CorpusFileM) (out : ExecOutcome) : CanParseState :=
  let applicable := games_to_test.filter (fun g => g ∈ f.games)
  if applicable = [] then st
  else
    let st1 : CanParseState :=
      { st with total := applicable.foldl bumpGame st.total }
    match out with
    | .success _ =>
      { st1 with passed := applicable.foldl bumpGame st1.passed }
    | .error m =>
      { st1 with failures := st1.failures ++
          [⟨implName, f.name, m⟩] }
    | .execFail m =>
      { st1 with failures := st1.failures ++
          [⟨implName, f.name, m⟩] }

/-- The corpus loop, folded over the files with the execution outcome
each produced. -/
def canParseLoop (implName : List Char) (games_to_test : List Game)
    (files : List (CorpusFileM × ExecOutcome)) : CanParseState :=
  files.foldl (fun st fo => canParseStep implName games_to_test st fo.1 fo.2)
    ⟨fun _ => 0, fun _ => 0, []⟩

/-- Model of `run_can_parase_tests_with_implementation`, with the corpus already
collected and the executor's answers given per file. A failed build
yields no per-game results and a single failure entry tagged `build`.
Otherwise the final results are one `(game, total, passed)` row per
distinct declared game, in the canonical game order (in the source, the
map's values sorted by game). -/
def runCanParse (implName : List Char) (games_to_test : List Game)
    (buildRes : Except (List Char) Unit)
    (files : List (CorpusFileM × ExecOutcome)) :
    List (Game × Nat × Nat) × List FailureDetail :=
  match buildRes with
  | .error e => ([], [⟨implName, "build".data, e⟩])
  | .ok _ =>
    let st := canParseLoop implName games_to_test files
    ((orderedGames.filter (fun g => g ∈ games_to_test)).map
      (fun g => (g, st.total g, st.passed g)), st.failures)

/-- Did the outcome count as a pass? -/
def isSuccessOutcome : ExecOutcome → Bool
  | .success _ => true
  | .error _ => false
  | .execFail _ => false

/-- The failure entry one file contributes: nothing when the file is
inapplicable or passed, otherwise the named failure the loop records. -/
def canParseFailureOpt (implName : List Char) (games_to_test : List Game)
    (f : CorpusFileM) (out : ExecOutcome) : Option FailureDetail :=
  if games_to_test.filter (fun g => g ∈ f.games) = [] then none
  else
    match out with
    | .success _ => none
    | .error m => some ⟨implName, f.name, m⟩
    | .execFail m => some ⟨implName, f.name, m⟩

/-! ## Corpus collection (src/core/corpus.rs, `collect_relevant_corpus_files`) -/

/-- The walk body of `collect_relevant_corpus_files`: parse every file,
propagating any parse error (the `?`), and keep the files whose games
intersect `games_to_test`. -/
def collectFiles (games_to_test : List Game) :
    List (List Char × List Nat) → Except (List Char) (List CorpusFileM)
  | [] => .ok []
  | (n, bs) :: rest =>
    match parse_corpus_content bs with
    | .error e => .error ("Failed to parse corpus file ".data ++ n ++ ": ".data ++ e)
    | .ok (gs, content) =>
      (collectFiles games_to_test rest).map (fun acc =>
        if gs.any (fun g => g ∈ games_to_test) then ⟨n, gs, content⟩ :: acc
        else acc)

/-- Model of `collect_relevant_corpus_files`: the walk, then the non-emptiness
check. -/
def collect_relevant_corpus_files (games_to_test : List Game)
    (walk : List (List Char × List Nat)) :
    Except (List Char) (List CorpusFileM) :=
  match collectFiles games_to_test walk with
  | .error e => .error e
  | .ok files =>
    if files = [] then .error "No corpus files found".data
    else .ok files

/-- The head of `run_can_parase_tests_with_implementation`: the corpus
collection (whose error the `?` propagates, aborting the whole run for
this implementation) followed by the aggregation loop, with each
collected file's execution outcome supplied by `exec`. -/
def runCanParseWithWalk (implName : List Char) (games_to_test : List Game)
    (walk : List (List Char × List Nat))
    (buildRes : Except (List Char) Unit)
    (exec : CorpusFileM → ExecOutcome) :
    Except (List Char) (List (Game × Nat × Nat) × List FailureDetail) :=
  match collect_relevant_corpus_files games_to_test walk with
  | .error e => .error e
  | .ok files =>
    .ok (runCanParse implName games_to_test buildRes
      (files.map (fun f => (f, exec f))))

/-! ## Benchmark aggregation (src/commands/tasks/deserialization.rs) -/

/-- Model of `Duration::as_millis` on a duration built from microseconds. -/
def elapsedMillis (micros : Nat) : Nat := micros / 1000

/-- Model of `FileTestResult`. -/
inductive FileTestResult where
  | Success (elapsed_ms : Nat)
  | Failed
deriving DecidableEq

/-- One benchmark file record (`FileResult`, without the name fields the
aggregation ignores). -/
structure BenchFileResult where
  data_size_bytes : Nat
  result : FileTestResult
deriving DecidableEq

/-- The per-file throughput computation (MB/s) from
`run_benchmark_with_implementation`: megabytes divided by seconds, or 0
when the elapsed-millisecond count is 0. `f64` arithmetic is modelled as
exact rationals. -/
def fileThroughput (data_size_bytes elapsed_ms : Nat) : ℚ :=
  let mb_size : ℚ := (data_size_bytes : ℚ) / (1024 * 1024)
  let seconds : ℚ := (elapsed_ms : ℚ) / 1000
  if 0 < seconds then mb_size / seconds else 0

/-- The throughput list accumulated over the results: one entry per
`Success`, in order; failures contribute nothing. -/
def benchThroughputs (results : List BenchFileResult) : List ℚ :=
  results.filterMap (fun r =>
    match r.result with
    | .Success ms => some (fileThroughput r.data_size_bytes ms)
    | .Failed => none)

/-- The final average: mean of the collected throughputs, or 0 when the
list is empty. -/
def avg_throughput_mbps (results : List BenchFileResult) : ℚ :=
  let throughputs := benchThroughputs results
  if throughputs = [] then 0
  else throughputs.sum / (throughputs.length : ℚ)

/-- Did this file's execution succeed? -/
def isBenchSuccess (r : BenchFileResult) : Bool :=
  match r.result with
  | .Success _ => true
  | .Failed => false

/-- The recorded elapsed milliseconds of a file result (0 for failures,
which never reach the throughput computation). -/
def benchMs (r : BenchFileResult) : Nat :=
  match r.result with
  | .Success ms => ms
  | .Failed => 0

/-! ## Manifest loading (src/core/config.rs) -/

/-- Serde deserialization of one `Game` value under
`rename_all = "lowercase"`: an exact match of a lowercase variant name. -/
def gameDeserialize (s : List Char) : Option Game :=
  if s = "ck3".data then some Game.Ck3
  else if s = "eu4".data then some Game.Eu4
  else if s = "hoi4".data then some Game.Hoi4
  else if s = "imperator".data then some Game.Imperator
  else if s = "stellaris".data then some Game.Stellaris
  else if s = "vic3".data then some Game.Vic3
  else none

/-- Serde deserialization of a `Vec<Game>`: every element must be a
recognized tag, the first unknown one failing the whole list. -/
def deserializeGames : List (List Char) → Except (List Char) (List Game)
  | [] => .ok []
  | s :: rest =>
    match gameDeserialize s with
    | some g => (deserializeGames rest).map (fun gs => g :: gs)
    | none => .error ("unknown variant ".data ++ s)

/-- A manifest as raw TOML-level data, with the game tags still strings:
the per-task `games` arrays keyed by task name. -/
structure RawManifest where
  name : List Char
  tasks : List (List Char × List (List Char))

/-- A loaded `TaskConfig` list. -/
structure LoadedConfig where
  name : List Char
  tasks : List (List Char × List Game)

/-- The task-table part of deserializing `ImplementationConfig`:
deserialize each task's `games` array, failing the whole load on the
first unrecognized tag. -/
def deserializeTasks :
    List (List Char × List (List Char)) →
    Except (List Char) (List (List Char × List Game))
  | [] => .ok []
  | (task, games) :: rest =>
    match deserializeGames games with
    | .error e => .error e
    | .ok gs => (deserializeTasks rest).map (fun ts => (task, gs) :: ts)

/-- Model of `ImplementationConfig::load_from_file`, with the file read and the
TOML surface syntax abstracted away: serde validation of the manifest
data (in particular of every game tag). -/
def load_from_file (m : RawManifest) : Except (List Char) LoadedConfig :=
  match deserializeTasks m.tasks with
  | .error e => .error e
  | .ok ts => .ok ⟨m.name, ts⟩

/-! ## Theorems -/

/-- C6: success-rate computation: 0 when `total = 0`, otherwise
`passed / total × 100` (hence exactly 100 when `passed = total`), and
monotonically non-decreasing in `passed` for a fixed positive total. -/
theorem success_rate_spec (passed total : Nat) (hpt : passed ≤ total) :
    (total = 0 → success_rate passed total = 0) ∧
    (0 < total → success_rate passed total = (passed : ℚ) / (total : ℚ) * 100) ∧
    (passed = total → 0 < total → success_rate passed total = 100) ∧
    (∀ p1 p2 : Nat, p1 ≤ p2 → p2 ≤ total →
      success_rate p1 total ≤ success_rate p2 total) := by
  refine ⟨?_, ?_, ?_, ?_⟩
  · intro h; simp [success_rate, h]
  · intro h; simp [success_rate, h]
  · intro he h
    subst he
    have ht : (passed : ℚ) ≠ 0 := Nat.cast_ne_zero.mpr (by omega)
    simp [success_rate, h, div_self ht]
  · intro p1 p2 h12 h2
    unfold success_rate
    by_cases h : 0 < total
    · simp only [h, if_true]
      have hc : (p1 : ℚ) ≤ (p2 : ℚ) := by exact_mod_cast h12
      have ht : (0 : ℚ) < (total : ℚ) := by exact_mod_cast h
      gcongr
    · simp [h]

theorem success_rate_spec_witness :
    success_rate 1 2 = (1 : ℚ) / 2 * 100 :=
  (success_rate_spec 1 2 (by norm_num)).2.1 (by norm_num)

/-- C5 counterexample: a success with a worker-reported elapsed time of
500 microseconds over 1 MiB of data. The claimed formula
`(bytes / 1,048,576) / (elapsed microseconds / 1,000,000)` gives
2000 MB/s, but the code truncates the duration to whole milliseconds
(here 0 ms) before computing throughput and reports 0. -/
theorem throughput_micros_counterexample :
    avg_throughput_mbps [⟨1048576, .Success (elapsedMillis 500)⟩] = 0 ∧
    ((1048576 : ℚ) / 1048576) / ((500 : ℚ) / 1000000) = 2000 ∧
    (0 : ℚ) ≠ 2000 := by
  refine ⟨?_, by norm_num, by norm_num⟩
  have h1 : elapsedMillis 500 = 0 := rfl
  have hf : fileThroughput 1048576 0 = 0 := by norm_num [fileThroughput]
  simp [avg_throughput_mbps, benchThroughputs, h1, hf]

/-- C5 (amended): the per-file throughput equals
`(bytes / 1,048,576) / (ms / 1,000)` where `ms = ⌊elapsed microseconds
/ 1,000⌋`, so any elapsed time under one millisecond — zero included —
yields throughput 0 rather than a division error; and the aggregate
throughput is the arithmetic mean of the per-file throughputs over the
successful files only, 0 when there are none. -/
theorem throughput_spec :
    (∀ data_bytes micros : Nat,
      fileThroughput data_bytes (elapsedMillis micros) =
        if 1000 ≤ micros then
          ((data_bytes : ℚ) / 1048576) / (((micros / 1000 : Nat) : ℚ) / 1000)
        else 0) ∧
    (∀ data_bytes : Nat, fileThroughput data_bytes (elapsedMillis 0) = 0) ∧
    (∀ results : List BenchFileResult,
      avg_throughput_mbps results =
        if results.filter isBenchSuccess = [] then 0
        else ((results.filter isBenchSuccess).map
            (fun r => fileThroughput r.data_size_bytes (benchMs r))).sum /
          (((results.filter isBenchSuccess).length : ℚ))) := by
  have hfile : ∀ data_bytes micros : Nat,
      fileThroughput data_bytes (elapsedMillis micros) =
        if 1000 ≤ micros then
          ((data_bytes : ℚ) / 1048576) / (((micros / 1000 : Nat) : ℚ) / 1000)
        else 0 := by
    intro data_bytes micros
    unfold fileThroughput elapsedMillis
    by_cases h : 1000 ≤ micros
    · have hms : 0 < micros / 1000 := Nat.div_pos h (by norm_num)
      have hq : (0 : ℚ) < ((micros / 1000 : Nat) : ℚ) / 1000 := by
        apply div_pos
        · exact_mod_cast hms
        · norm_num
      simp only [h, if_true, hq, if_pos]
      norm_num
    · have hms : micros / 1000 = 0 := Nat.div_eq_of_lt (by omega)
      simp [h, hms]
  have hmap : ∀ results : List BenchFileResult,
      benchThroughputs results =
        (results.filter isBenchSuccess).map
          (fun r => fileThroughput r.data_size_bytes (benchMs r)) := by
    intro results
    induction results with
    | nil => rfl
    | cons r rs ih =>
      rcases r with ⟨bytes, res⟩
      cases res with
      | Success ms => simp [benchThroughputs, isBenchSuccess, benchMs,
          List.filterMap_cons, List.filter_cons] at ih ⊢; exact ih
      | Failed => simpa [benchThroughputs, isBenchSuccess, benchMs,
          List.filterMap_cons, List.filter_cons] using ih
  refine ⟨hfile, fun b => by simpa using hfile b 0, fun results => ?_⟩
  unfold avg_throughput_mbps
  rw [hmap results]
  by_cases h : results.filter isBenchSuccess = []
  · simp [h]
  · simp [h]

/-- C2: a successful exit with at least two stdout lines whose first
line parses as a `u64` decodes to `Success` with that many microseconds
as the duration, regardless of the content of the second line. -/
theorem decode_success_spec (exit_code : Option Int)
    (stdout stderr l0 l1 : List Char) (ltail : List (List Char)) (micros : Nat)
    (hlines : rustLines stdout = l0 :: l1 :: ltail)
    (hparse : parseU64 l0 = some micros) :
    decodeOutcome true exit_code stdout stderr = .Success micros := by
  unfold decodeOutcome
  rw [hlines]
  simp [hparse]

/-- C2 witness: the reply `2000000\nError: bad token` with a successful
exit decodes to `Success` with 2,000,000 microseconds. -/
theorem decode_success_spec_witness :
    decodeOutcome true (some 0) "2000000\nError: bad token".data [] =
      .Success 2000000 :=
  decode_success_spec (some 0) "2000000\nError: bad token".data []
    "2000000".data "Error: bad token".data [] 2000000 (by decide) (by decide)

/-- C3: whenever the success decode rule does not hold, the outcome is
`Error`; the message is stdout line 2 verbatim when there are at least
two lines and line 1 parses as a `u128`, otherwise the non-empty
trimmed streams joined by one space, otherwise the generic
exit-code message. -/
theorem decode_error_spec (exit_success : Bool) (exit_code : Option Int)
    (stdout stderr : List Char)
    (h : ¬ (exit_success = true ∧ ∃ l0 l1 t m,
      rustLines stdout = l0 :: l1 :: t ∧ parseU64 l0 = some m)) :
    decodeOutcome exit_success exit_code stdout stderr = .Error
      (match rustLines stdout with
       | l0 :: l1 :: _ =>
         if (parseU128 l0).isSome then l1
         else combinedOutputMsg exit_code stdout stderr
       | _ => combinedOutputMsg exit_code stdout stderr) := by
  unfold decodeOutcome errorOutcomeMsg
  cases hl : rustLines stdout with
  | nil => rfl
  | cons l0 rest =>
    cases rest with
    | nil => rfl
    | cons l1 t =>
      cases exit_success with
      | false => rfl
      | true =>
        cases hp : parseU64 l0 with
        | none => simp [hp]
        | some m => exact absurd ⟨rfl, l0, l1, t, m, hl, hp⟩ h

/-- C3 witness: the same `2000000\nError: bad token` payload with a
nonzero exit code decodes to `Error` with message `Error: bad token`. -/
theorem decode_error_spec_witness :
    decodeOutcome false (some 1) "2000000\nError: bad token".data [] =
      .Error "Error: bad token".data :=
  (decode_error_spec false (some 1) "2000000\nError: bad token".data []
    (by simp)).trans (by decide)

/-- An unknown tag anywhere in a games list fails its deserialization. -/
theorem deserializeGames_err_of_unknown (games : List (List Char))
    (tag : List Char) (htag : tag ∈ games) (hunk : gameDeserialize tag = none) :
    ∃ e, deserializeGames games = .error e := by
  induction games with
  | nil => cases htag
  | cons g gs ih =>
    unfold deserializeGames
    cases htag with
    | head => rw [hunk]; exact ⟨_, rfl⟩
    | tail _ hmem =>
      cases hg : gameDeserialize g with
      | none => exact ⟨_, rfl⟩
      | some game =>
        obtain ⟨e, he⟩ := ih hmem
        rw [he]
        exact ⟨e, rfl⟩

/-- A failing games list anywhere in the task table fails the whole
table deserialization. -/
theorem deserializeTasks_err_of_unknown
    (tasks : List (List Char × List (List Char))) (task : List Char)
    (games : List (List Char)) (tag : List Char)
    (hmem : (task, games) ∈ tasks) (htag : tag ∈ games)
    (hunk : gameDeserialize tag = none) :
    ∃ e, deserializeTasks tasks = .error e := by
  induction tasks with
  | nil => cases hmem
  | cons tg rest ih =>
    rcases tg with ⟨t, gs⟩
    unfold deserializeTasks
    cases hmem with
    | head =>
      obtain ⟨e, he⟩ := deserializeGames_err_of_unknown games tag htag hunk
      rw [he]
      exact ⟨e, rfl⟩
    | tail _ hmem2 =>
      cases hg : deserializeGames gs with
      | error e => exact ⟨e, rfl⟩
      | ok gsok =>
        obtain ⟨e, he⟩ := ih hmem2
        rw [he]
        exact ⟨e, rfl⟩

/-- C8: a manifest listing an unrecognized game tag under any task fails
to load — the unrecognized tag is a hard load-time error, never a silent
skip. -/
theorem load_rejects_unknown_tag (m : RawManifest) (task : List Char)
    (games : List (List Char)) (tag : List Char)
    (hmem : (task, games) ∈ m.tasks) (htag : tag ∈ games)
    (hunk : gameDeserialize tag = none) :
    ∃ e, load_from_file m = .error e := by
  obtain ⟨e, he⟩ := deserializeTasks_err_of_unknown m.tasks task games tag
    hmem htag hunk
  exact ⟨e, by unfold load_from_file; rw [he]⟩

/-- C8 witness: a manifest declaring `can-parse` over `eu4` and the
unrecognized tag `eu5` fails to load. -/
theorem load_rejects_unknown_tag_witness :
    ∃ e, load_from_file
      ⟨"demo".data, [("can-parse".data, ["eu4".data, "eu5".data])]⟩ =
      .error e :=
  load_rejects_unknown_tag
    ⟨"demo".data, [("can-parse".data, ["eu4".data, "eu5".data])]⟩
    "can-parse".data ["eu4".data, "eu5".data] "eu5".data
    (by simp) (by simp) (by decide)

/-- C9: the lifecycle state machine of the executor: a successful build
is the only way to reach `Built` (a build whose command exits unsuccessfully
returns an error and never produces a `Built` executor), an absent build
command is an immediate success, and `execute` is exposed by the `Built`
stage only. -/
theorem executor_lifecycle :
    (∀ (cmd : Option (List Char)) (ok : Bool) (code : Option Int) (s : Stage),
      buildExecutor cmd ok code = .ok s → s = Stage.Built) ∧
    (∀ (c : List Char) (code : Option Int),
      buildExecutor (some c) false code =
        .error ("Build failed with exit code: ".data ++ reprExitCode code)) ∧
    (∀ (ok : Bool) (code : Option Int),
      buildExecutor none ok code = .ok Stage.Built) ∧
    (∀ s : Stage, exposesExecute s = true → s = Stage.Built) ∧
    (StageReachable Stage.Built →
      ∃ (cmd : Option (List Char)) (ok : Bool) (code : Option Int),
        buildExecutor cmd ok code = .ok Stage.Built) := by
  refine ⟨?_, ?_, ?_, ?_, ?_⟩
  · intro cmd ok code s h
    cases cmd with
    | none => simpa [buildExecutor] using h.symm
    | some c =>
      cases ok with
      | true => simpa [buildExecutor] using h.symm
      | false => simp [buildExecutor] at h
  · intro c code; rfl
  · intro ok code; rfl
  · intro s h; cases s with
    | Built => rfl
    | Initial => simp [exposesExecute] at h
  · intro h
    cases h with
    | buildStep cmd ok code s _ heq => exact ⟨cmd, ok, code, heq⟩

/-- C9 witness: an implementation without a build command transitions to
`Built` immediately, so `Built` is reachable by a successful build. -/
theorem executor_lifecycle_witness :
    ∃ (cmd : Option (List Char)) (ok : Bool) (code : Option Int),
      buildExecutor cmd ok code = .ok Stage.Built :=
  executor_lifecycle.2.2.2.2
    (StageReachable.buildStep none true none Stage.Built
      StageReachable.start rfl)

/-- Lossy decoding maps an all-ASCII prefix to itself, character for
character, whatever follows. -/
theorem decodeChars_ascii_append (pre tail : List Nat)
    (h : ∀ b ∈ pre, b < 128) :
    decodeChars (pre ++ tail) = pre.map Char.ofNat ++ decodeChars tail := by
  induction pre with
  | nil => rfl
  | cons b pre ih =>
    have hb : b < 128 := h b (by simp)
    rw [List.cons_append, decodeChars.eq_def]
    simp only [hb, if_pos, List.map_cons, List.cons_append]
    rw [ih (fun x hx => h x (by simp [hx]))]

/-- Lossy decoding of a nonempty byte list is nonempty. -/
theorem decodeChars_ne_nil (b : Nat) (rest : List Nat) :
    decodeChars (b :: rest) ≠ [] := by
  rw [decodeChars.eq_def]
  repeat' split
  all_goals simp_all

/-- Lemma: `splitOnNl` always returns at least one part. -/
theorem splitOnNl_ne_nil (l : List Char) : splitOnNl l ≠ [] := by
  cases l with
  | nil => simp [splitOnNl]
  | cons c t =>
    rw [splitOnNl]
    split
    · simp
    · split <;> simp

/-- Lemma: `splitOnNl` over a newline-free prefix followed by `'\n'`. -/
theorem splitOnNl_append_nl (a t : List Char) (ha : '\n' ∉ a) :
    splitOnNl (a ++ '\n' :: t) = a :: splitOnNl t := by
  induction a with
  | nil => simp [splitOnNl]
  | cons c a ih =>
    have hc : c ≠ '\n' := fun h => ha (h ▸ List.mem_cons_self c a)
    rw [List.cons_append, splitOnNl, if_neg hc,
      ih (fun h => ha (List.mem_cons_of_mem c h))]

/-- Lemma: `splitOnNl` of a newline-free list is that single part. -/
theorem splitOnNl_no_nl (a : List Char) (ha : '\n' ∉ a) :
    splitOnNl a = [a] := by
  induction a with
  | nil => rfl
  | cons c a ih =>
    have hc : c ≠ '\n' := fun h => ha (h ▸ List.mem_cons_self c a)
    rw [splitOnNl, if_neg hc, ih (fun h => ha (List.mem_cons_of_mem c h))]

/-- A list without `'\r'` is unchanged by `stripCR`. -/
theorem stripCR_no_cr (a : List Char) (ha : '\r' ∉ a) : stripCR a = a := by
  unfold stripCR
  split
  · next h => exact absurd (List.mem_of_mem_getLast? h) ha
  · rfl

/-- Lemma: `stripCR` removes exactly one trailing `'\r'`. -/
theorem stripCR_concat (a : List Char) : stripCR (a ++ ['\r']) = a := by
  unfold stripCR
  rw [List.getLast?_concat]
  simp [List.dropLast_concat]

/-- Lemma: `rustLines` over a newline-free first line followed by `'\n'`. -/
theorem rustLines_append_nl (a t : List Char) (ha : '\n' ∉ a) :
    rustLines (a ++ '\n' :: t) = stripCR a :: rustLines t := by
  unfold rustLines
  rw [splitOnNl_append_nl a t ha]
  obtain ⟨q, qs, hq⟩ : ∃ q qs, splitOnNl t = q :: qs := by
    cases h : splitOnNl t with
    | nil => exact absurd h (splitOnNl_ne_nil t)
    | cons q qs => exact ⟨q, qs, rfl⟩
  rw [hq]
  rfl

/-- A one-part split means the input had no newline and is that part. -/
theorem splitOnNl_singleton (t p : List Char) (h : splitOnNl t = [p]) :
    p = t := by
  induction t generalizing p with
  | nil =>
    simp only [splitOnNl] at h
    injection h with h1 _
    exact h1.symm
  | cons c t ih =>
    rw [splitOnNl] at h
    split at h
    · injection h with h1 h2
      exact absurd h2 (splitOnNl_ne_nil t)
    · rename_i hc
      cases hq : splitOnNl t with
      | nil => exact absurd hq (splitOnNl_ne_nil t)
      | cons q qs =>
        rw [hq] at h
        injection h with h1 h2
        subst h2
        have := ih q hq
        rw [← h1, this]

/-- A nonempty character list has at least one line. -/
theorem rustLines_ne_nil_of_ne_nil (t : List Char) (ht : t ≠ []) :
    rustLines t ≠ [] := by
  unfold rustLines
  cases hq : splitOnNl t with
  | nil => exact absurd hq (splitOnNl_ne_nil t)
  | cons q qs =>
    cases qs with
    | nil =>
      have hqt : q = t := splitOnNl_singleton t q hq
      simp [linesProcess, hqt, ht]
    | cons r rs => simp [linesProcess]

/-- Evaluation of `parse_corpus_content` in terms of an already-computed line split. -/
theorem parse_corpus_content_lines (bs : List Nat) (first : List Char)
    (restL : List (List Char))
    (hl : rustLines (decodeChars bs) = first :: restL) :
    parse_corpus_content bs =
      if directiveMark.isPrefixOf (rustTrim first) then
        match expand_game_aliases
          (rustTrim ((rustTrim first).drop directiveMark.length)) with
        | .error e => .error e
        | .ok games =>
          .ok (games, if restL ≠ [] then (splitRemainder bs).getD bs else [])
      else .ok ([], bs) := by
  unfold parse_corpus_content
  rw [hl]

/-- C7: content whose first line is not a `# @babblewitz:games:`
directive — a legacy spelling included — parses to an empty game set and
the content unchanged, byte for byte. -/
theorem no_directive_spec (bs : List Nat) (first : List Char)
    (restL : List (List Char))
    (hl : rustLines (decodeChars bs) = first :: restL)
    (h : ¬ directiveMark.isPrefixOf (rustTrim first) = true) :
    parse_corpus_content bs = .ok ([], bs) := by
  rw [parse_corpus_content_lines bs first restL hl, if_neg h]

/-- C7 witness: a legacy `# @games:` directive as the first line is not
recognized; the whole input is returned unchanged with no games. -/
theorem no_directive_spec_witness :
    parse_corpus_content ("# @games: eu4 ck3\ndate".data.map Char.toNat) =
      .ok ([], "# @games: eu4 ck3\ndate".data.map Char.toNat) :=
  no_directive_spec ("# @games: eu4 ck3\ndate".data.map Char.toNat)
    "# @games: eu4 ck3".data ["date".data] (by decide) (by decide)

/-- Scanning for the first line-break byte skips a clean prefix. -/
theorem splitRemainder_clean_append (pre x : List Nat)
    (h : ∀ b ∈ pre, b ≠ 10 ∧ b ≠ 13) :
    splitRemainder (pre ++ x) = splitRemainder x := by
  induction pre with
  | nil => rfl
  | cons b pre ih =>
    have hb := h b (by simp)
    rw [List.cons_append, splitRemainder.eq_def]
    simp only [hb.1, hb.2, if_false, if_neg, reduceIte]
    exact ih (fun y hy => h y (by simp [hy]))

/-- Token expansion succeeds with the flattened per-token games when
every token is `all` or a recognized tag. -/
theorem expandTokens_ok (tokens : List (List Char))
    (h : ∀ t ∈ tokens, t = allToken ∨ (gameFromStr t).isSome = true) :
    expandTokens tokens = .ok (tokens.flatMap expandTok) := by
  induction tokens with
  | nil => rfl
  | cons t ts ih =>
    have ht := h t (by simp)
    have ih2 := ih (fun x hx => h x (by simp [hx]))
    unfold expandTokens
    by_cases hall : t = allToken
    · rw [if_pos hall, ih2]
      subst hall
      simp [List.flatMap_cons, expandTok, Except.map]
    · rw [if_neg hall]
      rcases ht with h1 | h2
      · exact absurd h1 hall
      · obtain ⟨g, hg⟩ := Option.isSome_iff_exists.mp h2
        rw [hg, ih2]
        simp [List.flatMap_cons, expandTok, hall, hg, Except.map]

/-- Evaluation of `expand_game_aliases` on an all-recognized token list. -/
theorem expand_game_aliases_ok (gp : List Char)
    (h : ∀ t ∈ splitWs gp, t = allToken ∨ (gameFromStr t).isSome = true) :
    expand_game_aliases gp = .ok (dedupGames ((splitWs gp).flatMap expandTok)) := by
  unfold expand_game_aliases
  rw [expandTokens_ok (splitWs gp) h]
  rfl

/-- Decoding a leading line-feed byte. -/
theorem decodeChars_nl (x : List Nat) :
    decodeChars (10 :: x) = '\n' :: decodeChars x := by
  rw [decodeChars.eq_def]
  norm_num

/-- Decoding a leading carriage-return byte. -/
theorem decodeChars_cr (x : List Nat) :
    decodeChars (13 :: x) = '\r' :: decodeChars x := by
  rw [decodeChars.eq_def]
  norm_num

/-- C1 (amended): for content whose first line matches the directive
grammar — the trimmed line starts with `# @babblewitz:games:`, every
following whitespace-separated token is `all` or a recognized tag, and
the line itself contains no stray carriage-return byte — parsing returns
exactly the declared game set (each token contributing its game, `all`
contributing the fixed six-game list, duplicates removed keeping the
first occurrence) and the content is exactly the bytes after the line's
`\n` or `\r\n` terminator, byte for byte; a directive-only input (with
or without a final terminator) yields empty content. -/
theorem directive_parse_spec (dirLine gp : List Char) (term rest : List Nat)
    (hA : ∀ c ∈ dirLine, c.toNat < 128)
    (hN : '\n' ∉ dirLine) (hR : '\r' ∉ dirLine)
    (hmark : rustTrim dirLine = directiveMark ++ gp)
    (htok : ∀ t ∈ splitWs (rustTrim gp),
      t = allToken ∨ (gameFromStr t).isSome = true)
    (hterm : term = [10] ∨ term = [13, 10] ∨ (term = [] ∧ rest = [])) :
    parse_corpus_content (dirLine.map Char.toNat ++ term ++ rest) =
      .ok (dedupGames ((splitWs (rustTrim gp)).flatMap expandTok), rest) := by
  have hbytesA : ∀ b ∈ dirLine.map Char.toNat, b < 128 := by
    intro b hb
    obtain ⟨c, hc, rfl⟩ := List.mem_map.mp hb
    exact hA c hc
  have hofnat : (dirLine.map Char.toNat).map Char.ofNat = dirLine := by
    rw [List.map_map]
    conv_rhs => rw [← List.map_id dirLine]
    exact List.map_congr_left fun c _ => Char.ofNat_toNat c
  have hclean : ∀ b ∈ dirLine.map Char.toNat, b ≠ 10 ∧ b ≠ 13 := by
    intro b hb
    obtain ⟨c, hc, rfl⟩ := List.mem_map.mp hb
    constructor
    · intro h10
      apply hN
      have hcn : c = '\n' := by
        have h2 := congrArg Char.ofNat h10
        rwa [Char.ofNat_toNat] at h2
      exact hcn ▸ hc
    · intro h13
      apply hR
      have hcn : c = '\r' := by
        have h2 := congrArg Char.ofNat h13
        rwa [Char.ofNat_toNat] at h2
      exact hcn ▸ hc
  have hDirNe : dirLine ≠ [] := by
    intro h
    rw [h] at hmark
    have hdm : directiveMark ≠ [] := by decide
    have : rustTrim ([] : List Char) = [] := rfl
    rw [this] at hmark
    exact hdm (List.append_eq_nil.mp hmark.symm).1
  have hifp : directiveMark.isPrefixOf (rustTrim dirLine) = true := by
    rw [hmark, List.isPrefixOf_iff_prefix]
    exact List.prefix_append directiveMark gp
  have hgp : rustTrim ((rustTrim dirLine).drop directiveMark.length) =
      rustTrim gp := by
    rw [hmark, List.drop_left]
  have hexp := expand_game_aliases_ok (rustTrim gp) htok
  rcases hterm with h10 | h1310 | ⟨hte, hre⟩
  · -- terminator "\n"
    subst h10
    have hb : dirLine.map Char.toNat ++ [10] ++ rest =
        dirLine.map Char.toNat ++ 10 :: rest := by simp
    rw [hb]
    have hdec : decodeChars (dirLine.map Char.toNat ++ 10 :: rest) =
        dirLine ++ '\n' :: decodeChars rest := by
      rw [decodeChars_ascii_append _ _ hbytesA, hofnat, decodeChars_nl]
    have hlines : rustLines (decodeChars (dirLine.map Char.toNat ++ 10 :: rest)) =
        dirLine :: rustLines (decodeChars rest) := by
      rw [hdec, rustLines_append_nl dirLine _ hN, stripCR_no_cr dirLine hR]
    rw [parse_corpus_content_lines _ _ _ hlines, if_pos hifp, hgp, hexp]
    cases hrest : rest with
    | nil => rfl
    | cons rb rtail =>
      have hne : rustLines (decodeChars (rb :: rtail)) ≠ [] :=
        rustLines_ne_nil_of_ne_nil _ (decodeChars_ne_nil rb rtail)
      simp only [hne, ne_eq, not_false_iff, if_true, if_pos]
      rw [splitRemainder_clean_append _ _ hclean]
      rfl
  · -- terminator "\r\n"
    subst h1310
    have hb : dirLine.map Char.toNat ++ [13, 10] ++ rest =
        dirLine.map Char.toNat ++ 13 :: 10 :: rest := by simp
    rw [hb]
    have hdec : decodeChars (dirLine.map Char.toNat ++ 13 :: 10 :: rest) =
        (dirLine ++ ['\r']) ++ '\n' :: decodeChars rest := by
      rw [decodeChars_ascii_append _ _ hbytesA, hofnat, decodeChars_cr,
        decodeChars_nl]
      simp
    have hcrn : '\n' ∉ dirLine ++ ['\r'] := by
      intro hmem
      rcases List.mem_append.mp hmem with hmem2 | hmem2
      · exact hN hmem2
      · simp at hmem2
    have hlines : rustLines
        (decodeChars (dirLine.map Char.toNat ++ 13 :: 10 :: rest)) =
        dirLine :: rustLines (decodeChars rest) := by
      rw [hdec, rustLines_append_nl _ _ hcrn, stripCR_concat]
    rw [parse_corpus_content_lines _ _ _ hlines, if_pos hifp, hgp, hexp]
    cases hrest : rest with
    | nil => rfl
    | cons rb rtail =>
      have hne : rustLines (decodeChars (rb :: rtail)) ≠ [] :=
        rustLines_ne_nil_of_ne_nil _ (decodeChars_ne_nil rb rtail)
      simp only [hne, ne_eq, not_false_iff, if_true, if_pos]
      rw [splitRemainder_clean_append _ _ hclean]
      rfl
  · -- a directive-only input: no terminator at all
    subst hte
    subst hre
    have hb : dirLine.map Char.toNat ++ [] ++ [] = dirLine.map Char.toNat := by
      simp
    rw [hb]
    have hdec : decodeChars (dirLine.map Char.toNat) = dirLine := by
      have h2 := decodeChars_ascii_append (dirLine.map Char.toNat) [] hbytesA
      rw [List.append_nil] at h2
      rw [h2, hofnat, show decodeChars ([] : List Nat) = [] from rfl,
        List.append_nil]
    have hlines : rustLines (decodeChars (dirLine.map Char.toNat)) =
        dirLine :: [] := by
      rw [hdec]
      unfold rustLines
      rw [splitOnNl_no_nl dirLine hN]
      simp [linesProcess, hDirNe]
    rw [parse_corpus_content_lines _ _ _ hlines, if_pos hifp, hgp, hexp]
    simp

/-- C1 witness: a CRLF-terminated directive `# @babblewitz:games: eu4
all eu4` followed by non-UTF-8 payload bytes parses to the six-game
expansion of `all` deduplicated behind `eu4`, with the raw payload bytes
returned untouched. -/
theorem directive_parse_spec_witness :
    parse_corpus_content
      ("# @babblewitz:games: eu4 all eu4".data.map Char.toNat ++
        [13, 10] ++ [255, 100]) =
      .ok ([Game.Eu4, Game.Ck3, Game.Hoi4, Game.Vic3, Game.Imperator,
        Game.Stellaris], [255, 100]) :=
  (directive_parse_spec "# @babblewitz:games: eu4 all eu4".data
    " eu4 all eu4".data [13, 10] [255, 100]
    (by decide) (by decide) (by decide) (by decide) (by decide)
    (Or.inr (Or.inl rfl))).trans (by decide)

/-- C1 counterexample: the input whose first line is
`# @babblewitz:games: eu4\rck3` (a lone carriage return between two
valid whitespace-separated game tokens) followed by `\n` and `rest`.
The first line matches the directive grammar, yet the parsed content is
`ck3\nrest` — the byte scan cut at the stray `\r` — and not the
claimed `rest`, the input minus its first line and `\n` terminator. -/
theorem directive_parse_counterexample :
    directiveMark.isPrefixOf
      (rustTrim "# @babblewitz:games: eu4\rck3".data) = true ∧
    (∀ t ∈ splitWs (rustTrim
        ((rustTrim "# @babblewitz:games: eu4\rck3".data).drop
          directiveMark.length)),
      (gameFromStr t).isSome = true) ∧
    '\n' ∉ "# @babblewitz:games: eu4\rck3".data ∧
    parse_corpus_content
      ("# @babblewitz:games: eu4\rck3".data.map Char.toNat ++
        10 :: "rest".data.map Char.toNat) =
      .ok ([Game.Eu4, Game.Ck3], "ck3\nrest".data.map Char.toNat) ∧
    "ck3\nrest".data.map Char.toNat ≠ "rest".data.map Char.toNat := by
  refine ⟨by decide, by decide, by decide, ?_, by decide⟩
  decide

/-- A token that is neither `all` nor a recognized tag fails the token
expansion. -/
theorem expandTokens_err (tokens : List (List Char)) (t : List Char)
    (ht : t ∈ tokens) (hna : t ≠ allToken) (hun : gameFromStr t = none) :
    ∃ e, expandTokens tokens = .error e := by
  induction tokens with
  | nil => cases ht
  | cons x xs ih =>
    unfold expandTokens
    by_cases hall : x = allToken
    · rw [if_pos hall]
      have hx : t ∈ xs := by
        rcases List.mem_cons.mp ht with h1 | h1
        · exact absurd (h1.trans hall) hna
        · exact h1
      obtain ⟨e, he⟩ := ih hx
      rw [he]
      exact ⟨e, rfl⟩
    · rw [if_neg hall]
      cases hg : gameFromStr x with
      | none => exact ⟨_, rfl⟩
      | some g =>
        have hx : t ∈ xs := by
          rcases List.mem_cons.mp ht with h1 | h1
          · subst h1
            rw [hun] at hg
            cases hg
          · exact h1
        obtain ⟨e, he⟩ := ih hx
        rw [he]
        exact ⟨e, rfl⟩

/-- A directive first line containing an unrecognized token makes the
whole corpus-file parse fail. -/
theorem parse_corpus_content_err (bs : List Nat) (first : List Char)
    (restL : List (List Char)) (t : List Char)
    (hl : rustLines (decodeChars bs) = first :: restL)
    (hpre : directiveMark.isPrefixOf (rustTrim first) = true)
    (htl : t ∈ splitWs (rustTrim ((rustTrim first).drop directiveMark.length)))
    (hna : t ≠ allToken) (hun : gameFromStr t = none) :
    ∃ e, parse_corpus_content bs = .error e := by
  rw [parse_corpus_content_lines bs first restL hl, if_pos hpre]
  obtain ⟨e, he⟩ := expandTokens_err _ t htl hna hun
  have hga : expand_game_aliases
      (rustTrim ((rustTrim first).drop directiveMark.length)) = .error e := by
    unfold expand_game_aliases
    rw [he]
    rfl
  rw [hga]
  exact ⟨e, rfl⟩

/-- One failing file anywhere in the walk fails the whole collection. -/
theorem collectFiles_err (games_to_test : List Game)
    (walk : List (List Char × List Nat)) (n : List Char) (bs : List Nat)
    (hmem : (n, bs) ∈ walk)
    (hperr : ∃ e, parse_corpus_content bs = .error e) :
    ∃ e, collectFiles games_to_test walk = .error e := by
  induction walk with
  | nil => cases hmem
  | cons p rest ih =>
    rcases p with ⟨pn, pbs⟩
    unfold collectFiles
    cases hp : parse_corpus_content pbs with
    | error e => exact ⟨_, rfl⟩
    | ok v =>
      rcases v with ⟨gs, content⟩
      have hmem2 : (n, bs) ∈ rest := by
        rcases List.mem_cons.mp hmem with h1 | h1
        · obtain ⟨e, he⟩ := hperr
          have hbs : bs = pbs := congrArg Prod.snd h1
          rw [hbs, hp] at he
          cases he
        · exact h1
      obtain ⟨e, he⟩ := ih hmem2
      rw [he]
      exact ⟨e, rfl⟩

/-- C10: a single corpus file whose first line starts with the
`# @babblewitz:games:` marker but lists a token that is neither a
recognized game tag nor `all` makes the whole corpus walk return an
error — even for games the file is irrelevant to — so the conformance
run for the implementation aborts instead of skipping the file or
recording a per-file failure. -/
theorem corpus_walk_aborts_on_bad_token (games_to_test : List Game)
    (walk : List (List Char × List Nat)) (n : List Char) (bs : List Nat)
    (first : List Char) (restL : List (List Char)) (t : List Char)
    (hmem : (n, bs) ∈ walk)
    (hl : rustLines (decodeChars bs) = first :: restL)
    (hpre : directiveMark.isPrefixOf (rustTrim first) = true)
    (htl : t ∈ splitWs (rustTrim ((rustTrim first).drop directiveMark.length)))
    (hna : t ≠ allToken) (hun : gameFromStr t = none) :
    (∃ e, collect_relevant_corpus_files games_to_test walk = .error e) ∧
    (∀ (implName : List Char) (buildRes : Except (List Char) Unit)
      (exec : CorpusFileM → ExecOutcome),
      ∃ e, runCanParseWithWalk implName games_to_test walk buildRes exec =
        .error e) := by
  have hperr := parse_corpus_content_err bs first restL t hl hpre htl hna hun
  obtain ⟨e, he⟩ := collectFiles_err games_to_test walk n bs hmem hperr
  have hcol : collect_relevant_corpus_files games_to_test walk = .error e := by
    unfold collect_relevant_corpus_files
    rw [he]
  refine ⟨⟨e, hcol⟩, fun implName buildRes exec => ⟨e, ?_⟩⟩
  unfold runCanParseWithWalk
  rw [hcol]

/-- C10 witness: a walk with one well-formed `ck3` file and one file
whose directive lists the unrecognized token `imperator_rome`; the
collection errors although the games under test are only `ck3`. -/
theorem corpus_walk_aborts_on_bad_token_witness :
    ∃ e, collect_relevant_corpus_files [Game.Ck3]
      [("good".data, "# @babblewitz:games: ck3\nx=1".data.map Char.toNat),
       ("bad".data,
        "# @babblewitz:games: eu4 imperator_rome\ny=2".data.map Char.toNat)] =
      .error e :=
  (corpus_walk_aborts_on_bad_token [Game.Ck3]
    [("good".data, "# @babblewitz:games: ck3\nx=1".data.map Char.toNat),
     ("bad".data,
      "# @babblewitz:games: eu4 imperator_rome\ny=2".data.map Char.toNat)]
    "bad".data
    ("# @babblewitz:games: eu4 imperator_rome\ny=2".data.map Char.toNat)
    "# @babblewitz:games: eu4 imperator_rome".data ["y=2".data]
    "imperator_rome".data
    (by decide) (by decide) (by decide) (by decide) (by decide)
    (by decide)).1

/-- Folding `bumpGame` adds the occurrence count of each game. -/
theorem foldl_bumpGame (l : List Game) (base : Game → Nat) (g : Game) :
    (l.foldl bumpGame base) g = base g + l.count g := by
  induction l generalizing base with
  | nil => simp
  | cons a l ih =>
    rw [List.foldl_cons, ih, List.count_cons]
    by_cases h : g = a
    · subst h
      simp [bumpGame]
      omega
    · have h2 : ¬ (a == g) = true := by simp [Ne.symm h]
      simp [bumpGame, h, h2]

/-- The total counter after one file: +1 exactly for the games under
test that the file declares. -/
theorem canParseStep_total (implName : List Char) (gtt : List Game)
    (st : CanParseState) (f : CorpusFileM) (out : ExecOutcome) (g : Game)
    (hnd : gtt.Nodup) (hg : g ∈ gtt) :
    (canParseStep implName gtt st f out).total g =
      st.total g + (if g ∈ f.games then 1 else 0) := by
  unfold canParseStep
  have hcnt : (gtt.filter (fun x => x ∈ f.games)).count g =
      if g ∈ f.games then 1 else 0 := by
    by_cases hm : g ∈ f.games
    · rw [if_pos hm]
      refine List.count_eq_one_of_mem (hnd.filter _) ?_
      rw [List.mem_filter]
      exact ⟨hg, by simp [hm]⟩
    · rw [if_neg hm]
      rw [List.count_eq_zero]
      intro hmem
      exact hm (by simpa using (List.mem_filter.mp hmem).2)
  by_cases hae : gtt.filter (fun x => x ∈ f.games) = []
  · rw [if_pos hae]
    rw [hae] at hcnt
    simp only [List.count_nil] at hcnt
    omega
  · rw [if_neg hae]
    cases out <;> simp only [] <;> rw [foldl_bumpGame, hcnt]

/-- The passed counter after one file: +1 exactly for the applicable
games when the outcome was a success. -/
theorem canParseStep_passed (implName : List Char) (gtt : List Game)
    (st : CanParseState) (f : CorpusFileM) (out : ExecOutcome) (g : Game)
    (hnd : gtt.Nodup) (hg : g ∈ gtt) :
    (canParseStep implName gtt st f out).passed g =
      st.passed g +
        (if g ∈ f.games ∧ isSuccessOutcome out = true then 1 else 0) := by
  unfold canParseStep
  have hcnt : (gtt.filter (fun x => x ∈ f.games)).count g =
      if g ∈ f.games then 1 else 0 := by
    by_cases hm : g ∈ f.games
    · rw [if_pos hm]
      refine List.count_eq_one_of_mem (hnd.filter _) ?_
      rw [List.mem_filter]
      exact ⟨hg, by simp [hm]⟩
    · rw [if_neg hm]
      rw [List.count_eq_zero]
      intro hmem
      exact hm (by simpa using (List.mem_filter.mp hmem).2)
  by_cases hae : gtt.filter (fun x => x ∈ f.games) = []
  · rw [if_pos hae]
    by_cases hm : g ∈ f.games
    · have : g ∈ gtt.filter (fun x => x ∈ f.games) := by
        rw [List.mem_filter]
        exact ⟨hg, by simp [hm]⟩
      rw [hae] at this
      cases this
    · simp [hm]
  · rw [if_neg hae]
    cases out with
    | success micros =>
      simp only [isSuccessOutcome]
      rw [foldl_bumpGame, hcnt]
      by_cases hm : g ∈ f.games <;> simp [hm]
    | error m => simp [isSuccessOutcome]
    | execFail m => simp [isSuccessOutcome]

/-- The failure list after one file: the step appends exactly the
file's failure contribution. -/
theorem canParseStep_failures (implName : List Char) (gtt : List Game)
    (st : CanParseState) (f : CorpusFileM) (out : ExecOutcome) :
    (canParseStep implName gtt st f out).failures =
      st.failures ++ (canParseFailureOpt implName gtt f out).toList := by
  unfold canParseStep canParseFailureOpt
  by_cases hae : gtt.filter (fun x => x ∈ f.games) = []
  · rw [if_pos hae, if_pos hae]
    simp
  · rw [if_neg hae, if_neg hae]
    cases out <;> simp

/-- The aggregation fold: total counters, from any starting state. -/
theorem canParseFold_total (implName : List Char) (gtt : List Game)
    (files : List (CorpusFileM × ExecOutcome)) (st : CanParseState) (g : Game)
    (hnd : gtt.Nodup) (hg : g ∈ gtt) :
    (files.foldl (fun s fo => canParseStep implName gtt s fo.1 fo.2) st).total g
      = st.total g + (files.filter (fun fo => g ∈ fo.1.games)).length := by
  induction files generalizing st with
  | nil => simp
  | cons fo fos ih =>
    rw [List.foldl_cons, ih, canParseStep_total implName gtt st fo.1 fo.2 g hnd hg,
      List.filter_cons]
    by_cases hm : g ∈ fo.1.games
    · simp [hm]
      omega
    · simp [hm]

/-- The aggregation fold: passed counters, from any starting state. -/
theorem canParseFold_passed (implName : List Char) (gtt : List Game)
    (files : List (CorpusFileM × ExecOutcome)) (st : CanParseState) (g : Game)
    (hnd : gtt.Nodup) (hg : g ∈ gtt) :
    (files.foldl (fun s fo => canParseStep implName gtt s fo.1 fo.2) st).passed g
      = st.passed g + (files.filter (fun fo =>
          g ∈ fo.1.games ∧ isSuccessOutcome fo.2 = true)).length := by
  induction files generalizing st with
  | nil => simp
  | cons fo fos ih =>
    rw [List.foldl_cons, ih,
      canParseStep_passed implName gtt st fo.1 fo.2 g hnd hg, List.filter_cons]
    by_cases hm : g ∈ fo.1.games ∧ isSuccessOutcome fo.2 = true
    · simp [hm]
      omega
    · simp [hm]

/-- The aggregation fold: failure list, from any starting state. -/
theorem canParseFold_failures (implName : List Char) (gtt : List Game)
    (files : List (CorpusFileM × ExecOutcome)) (st : CanParseState) :
    (files.foldl (fun s fo => canParseStep implName gtt s fo.1 fo.2) st).failures
      = st.failures ++
        files.filterMap (fun fo => canParseFailureOpt implName gtt fo.1 fo.2) := by
  induction files generalizing st with
  | nil => simp
  | cons fo fos ih =>
    rw [List.foldl_cons, ih, canParseStep_failures, List.filterMap_cons]
    cases h : canParseFailureOpt implName gtt fo.1 fo.2 <;> simp [h]

/-- C4: conformance aggregation. A build failure yields no per-game
results and the single failure entry tagged `build`. Otherwise each
declared game's row counts every applicable file in its total, counts
exactly the successful applicable files as passed, and every applicable
non-success appends one named failure. -/
theorem can_parse_aggregation (implName : List Char) (gtt : List Game)
    (files : List (CorpusFileM × ExecOutcome)) (buildErr : List Char)
    (hnd : gtt.Nodup) :
    runCanParse implName gtt (.error buildErr) files =
      ([], [⟨implName, "build".data, buildErr⟩]) ∧
    runCanParse implName gtt (.ok ()) files =
      ((orderedGames.filter (fun g => g ∈ gtt)).map (fun g =>
        (g, (files.filter (fun fo => g ∈ fo.1.games)).length,
          (files.filter (fun fo => g ∈ fo.1.games ∧
            isSuccessOutcome fo.2 = true)).length)),
       files.filterMap (fun fo => canParseFailureOpt implName gtt fo.1 fo.2)) := by
  refine ⟨rfl, ?_⟩
  unfold runCanParse canParseLoop
  apply Prod.ext
  · simp only []
    apply List.map_congr_left
    intro g hgmem
    have hg : g ∈ gtt := by simpa using (List.mem_filter.mp hgmem).2
    rw [canParseFold_total implName gtt files _ g hnd hg,
      canParseFold_passed implName gtt files _ g hnd hg]
    simp
  · simp only []
    rw [canParseFold_failures]
    rfl

/-- C4 witness: the end-to-end scenario — games under test `eu4 ck3`,
one passing `eu4 ck3` file and one failing `eu4` file — yields
ck3 total=1/passed=1 and eu4 total=2/passed=1 plus one named failure. -/
theorem can_parse_aggregation_witness :
    runCanParse "demo".data [Game.Eu4, Game.Ck3] (.ok ())
      [(⟨"f1".data, [Game.Eu4, Game.Ck3], []⟩, .success 10),
       (⟨"f2".data, [Game.Eu4], []⟩, .error "boom".data)] =
      ([(Game.Ck3, 1, 1), (Game.Eu4, 2, 1)],
       [⟨"demo".data, "f2".data, "boom".data⟩]) := by
  rw [(can_parse_aggregation "demo".data [Game.Eu4, Game.Ck3]
    [(⟨"f1".data, [Game.Eu4, Game.Ck3], []⟩, .success 10),
     (⟨"f2".data, [Game.Eu4], []⟩, .error "boom".data)]
    [] (by decide)).2]
  decide

end Babblewitz
